import Mathlib

/-!
# Verification of `geocode_clubs.py` (vasa-distance-map)

A shallow embedding of the single-file pipeline `src/geocode_clubs.py`:
the normalizer (`slugify`, `normalize_address`), the geocoder response
classification (`nominatim_geocode`), the cache store, and the per-row
pipeline driver (`main`'s loop and end-of-run actions), together with
proofs of the specification's claims about them.

Modelling conventions:
* Python strings are Lean `String`s; character-level work happens on
  `String.data : List Char`.  `str.strip()` / `\s` whitespace and
  `str.lower()` are modelled on the ASCII range.
* Python floats are modelled as `ℚ`; the primitive `float(s)` parse of a
  string is an oracle parameter `pf : String → Option ℚ`.
* Python/JSON values that flow through the cache are the inductive `PyVal`
  (Python `None` is `PyVal.none`, which is also what JSON `null` loads as).
* The stdlib `json.dumps`/`json.loads` pair and the HTTP layer are external
  to the repository; serialization is modelled at the JSON-value level
  (`PyVal`), where the stdlib round-trip contract is the identity.
-/

namespace GeocodeClubs

/-! ## Character-level helpers (Python string primitives) -/

/-- Whitespace as recognised by Python's `str.strip()` and `re`'s `\s`
(ASCII range: space, tab, newline, carriage return, vertical tab, form feed). -/
def pyIsSpace (c : Char) : Bool :=
  c == ' ' || c == '\t' || c == '\n' || c == '\r' || c == '\x0b' || c == '\x0c'

/-- Characters in the class `[a-z0-9]` of the `slugify` regex
(code points 97-122 and 48-57). -/
def isLowerAlnum (c : Char) : Bool :=
  (97 ≤ c.toNat && c.toNat ≤ 122) || (48 ≤ c.toNat && c.toNat ≤ 57)

/-- Python `str.lower()` on one character (ASCII range). -/
def pyToLower (c : Char) : Char := c.toLower

/-- Python `s.strip(chars-satisfying-p)`: drop the longest run of characters
satisfying `p` from both ends. -/
def stripBoth (p : Char → Bool) (l : List Char) : List Char :=
  (l.dropWhile p).rdropWhile p

/-- State machine for `re.sub(r"[bad]+", r, ·)`: `inRun` records whether the
previous character belonged to a run of `bad` characters (whose single
replacement `r` has already been emitted). -/
def squashAux (bad : Char → Bool) (r : Char) : Bool → List Char → List Char
  | _, [] => []
  | inRun, c :: cs =>
    if bad c then
      if inRun then squashAux bad r true cs
      else r :: squashAux bad r true cs
    else c :: squashAux bad r false cs

/-- Replacement, as `re.sub`, of every maximal run of characters satisfying `bad` by the single
character `r` (`re.sub(r"[bad]+", r, ·)`). -/
def squashRuns (bad : Char → Bool) (r : Char) (l : List Char) : List Char :=
  squashAux bad r false l

/-! ## Normalizer (`slugify`, `normalize_address`) -/

/-- Function `slugify` from `geocode_clubs.py`:
`text = (text or "").strip().lower()`,
`text = re.sub(r"[^a-z0-9]+", "-", text)`,
`return text.strip("-") or "club"`. -/
def slugify (s : String) : String :=
  let t1 := (stripBoth pyIsSpace s.data).map pyToLower
  let t2 := squashRuns (fun c => !isLowerAlnum c) '-' t1
  let t3 := stripBoth (fun c => c == '-') t2
  if t3.isEmpty then "club" else ⟨t3⟩

/-- Function `normalize_address` from `geocode_clubs.py`:
`return re.sub(r"\s+", " ", (addr or "").strip())`. -/
def normalize_address (s : String) : String :=
  ⟨squashRuns pyIsSpace ' ' (stripBoth pyIsSpace s.data)⟩

/-- Python `str.strip()` on a whole string. -/
def pyStrip (s : String) : String := ⟨stripBoth pyIsSpace s.data⟩

/-- Python `str.lower()` on a whole string (ASCII range). -/
def pyLower (s : String) : String := ⟨s.data.map pyToLower⟩

/-! ## Python/JSON values

The values that flow through the cache and the output records are dynamically
typed in Python.  `PyVal` covers exactly the values `json.loads` can produce
(JSON `null` loads as Python `None`, here `PyVal.none`); floats are `ℚ`. -/

inductive PyVal where
  | none
  | bool (b : Bool)
  | num (q : ℚ)
  | str (s : String)
  | list (xs : List PyVal)
  | dict (entries : List (String × PyVal))

/-- Python truthiness (`if not data:`) for the values `PyVal` covers. -/
def pyTruthy : PyVal → Bool
  | .none => false
  | .bool b => b
  | .num q => !(q == 0)
  | .str s => !(s == "")
  | .list xs => !xs.isEmpty
  | .dict d => !d.isEmpty

/-- Is this value a Python `dict` (a JSON object)? -/
def PyVal.isDictB : PyVal → Bool
  | .dict _ => true
  | _ => false

/-- Python `d.get(k)` on a dict: the stored value, or `None` when the key is
absent.  (A stored JSON `null` is already `PyVal.none`, as in Python.) -/
def dictGetD (d : List (String × PyVal)) (k : String) : PyVal :=
  match d.lookup k with
  | some v => v
  | Option.none => PyVal.none

/-- Python `d[k] = v` on a dict: overwrite in place when the key is present
(dicts keep the original insertion position), append otherwise. -/
def dictInsert (k : String) (v : PyVal) (d : List (String × PyVal)) :
    List (String × PyVal) :=
  if (d.lookup k).isSome then
    d.map (fun p => if p.1 = k then (k, v) else p)
  else d ++ [(k, v)]

/-- A Python `float | None` as a `PyVal` (how it is stored in dicts/JSON). -/
def optToPy : Option ℚ → PyVal
  | some q => .num q
  | Option.none => .none

/-! ## Geocoder (`nominatim_geocode`)

The HTTP layer (`requests`) is external: a response is modelled by its
`ok` flag, `status_code`, and the already-parsed JSON body (`r.json()`),
per the spec's external-interface contract that the endpoint returns JSON.
Python's `float()` on strings is the oracle parameter `pf`. -/

structure HttpResp where
  ok : Bool
  status_code : Nat
  body : PyVal

/-- Python `float(v)`, with `pf` standing for float-parsing of strings.
Returns the exception detail on failure. -/
def pyFloat (pf : String → Option ℚ) : PyVal → Except String ℚ
  | .num q => .ok q
  | .bool b => .ok (if b then 1 else 0)
  | .str s =>
    match pf s with
    | some q => .ok q
    | Option.none => .error ("could not convert string to float: " ++ s)
  | .none => .error "float() argument must be a string or a real number, not NoneType"
  | .list _ => .error "float() argument must be a string or a real number, not list"
  | .dict _ => .error "float() argument must be a string or a real number, not dict"

/-- Python `data[0]`, with the exception detail on failure. -/
def pySubZero : PyVal → Except String PyVal
  | .list (a :: _) => .ok a
  | .list [] => .error "list index out of range"
  | .dict _ => .error "KeyError: 0"
  | .str s =>
    match s.data with
    | a :: _ => .ok (.str ⟨[a]⟩)
    | [] => .error "string index out of range"
  | _ => .error "object is not subscriptable"

/-- Python `v[k]` for a string key, with the exception detail on failure. -/
def pySubStr (k : String) : PyVal → Except String PyVal
  | .dict d =>
    match d.lookup k with
    | some v => .ok v
    | Option.none => .error ("KeyError: " ++ k)
  | _ => .error "indices must be integers"

/-- The body of the `try:` block of `nominatim_geocode`:
`lat = float(data[0]["lat"]); lon = float(data[0]["lon"])`. -/
def tryLatLon (pf : String → Option ℚ) (data : PyVal) : Except String (ℚ × ℚ) := do
  let first0 ← pySubZero data
  let latV ← pySubStr "lat" first0
  let lat ← pyFloat pf latV
  let first1 ← pySubZero data
  let lonV ← pySubStr "lon" first1
  let lon ← pyFloat pf lonV
  return (lat, lon)

/-- Function `nominatim_geocode` from `geocode_clubs.py`, given the HTTP response for
the address's request: classify it into a `(lat, lng, status)` triple. -/
def nominatim_geocode (pf : String → Option ℚ) (r : HttpResp) :
    Option ℚ × Option ℚ × String :=
  if !r.ok then (Option.none, Option.none, "HTTP " ++ toString r.status_code)
  else if !pyTruthy r.body then (Option.none, Option.none, "No result")
  else
    match tryLatLon pf r.body with
    | .ok (lat, lon) => (some lat, some lon, "OK")
    | .error e => (Option.none, Option.none, "Parse error: " ++ e)

/-! ## Pipeline driver (`main`)

One input row carries the `str(...)` renderings of the two cells (pandas
renders a missing cell as the text `"nan"`, which the code guards against).
The geocoder is abstracted to an oracle `geo : String → Option ℚ × Option ℚ ×
String` giving `nominatim_geocode`'s triple for each address; the run state
records, besides the code's own data, the addresses passed to the geocoder
(`calls`) and the accumulated `time.sleep` amount (`sleepTotal`), and a
`crashed` flag for an uncaught exception (subscripting a non-dict cache
entry), after which no further work happens. -/

structure InputRow where
  club : String
  address : String

structure Club where
  id : String
  name : String
  address : String
  lat : PyVal
  lng : PyVal

structure ReportRow where
  row : Nat
  club : String
  address : String
  status : String
  lat : PyVal
  lng : PyVal

structure RunState where
  cache : List (String × PyVal)
  clubs : List Club
  report : List ReportRow
  calls : List String
  sleepTotal : ℚ
  crashed : Bool

def initState (cache0 : List (String × PyVal)) : RunState :=
  ⟨cache0, [], [], [], 0, false⟩

/-- Rendering `"" if v is None else v` — how the report shows a coordinate cell. -/
def renderCell (v : PyVal) : PyVal :=
  match v with
  | .none => .str ""
  | v => v

/-- The two `append`s shared by the cache-hit and live-lookup paths:
`clubs_out.append({...})` then `report_rows.append({...})`. -/
def emitRow (st : RunState) (i : Nat) (name address : String)
    (lat lng : PyVal) (status : String) : RunState :=
  { st with
    clubs := st.clubs ++ [⟨slugify name, name, address, lat, lng⟩],
    report := st.report ++ [⟨i, name, address, status, renderCell lat, renderCell lng⟩] }

/-- The local `name = str(row.get("CLUB", "")).strip()` -/
def rowName (row : InputRow) : String := pyStrip row.club

/-- The local `address = normalize_address(str(row.get("ADDRESS", "")).strip())` -/
def rowAddr (row : InputRow) : String := normalize_address (pyStrip row.address)

/-- The guard `if not name or not address or address.lower() == "nan":` -/
def skipCond (row : InputRow) : Prop :=
  rowName row = "" ∨ rowAddr row = "" ∨ pyLower (rowAddr row) = "nan"

instance (row : InputRow) : Decidable (skipCond row) := by
  unfold skipCond; exact inferInstance

/-- One iteration of `for i, row in df.iterrows():` in `main`. -/
def step (geo : String → Option ℚ × Option ℚ × String)
    (st : RunState) (ir : Nat × InputRow) : RunState :=
  if st.crashed then st else
  if skipCond ir.2 then
    { st with
      report := st.report ++
        [⟨ir.1, rowName ir.2, rowAddr ir.2, "Skipped (missing name/address)",
          .str "", .str ""⟩] }
  else
    match st.cache.lookup (rowAddr ir.2) with
    | some entry =>
      match entry with
      | .dict d =>
        emitRow st ir.1 (rowName ir.2) (rowAddr ir.2)
          (dictGetD d "lat") (dictGetD d "lng") "OK (cached)"
      | _ => { st with crashed := true }
    | Option.none =>
      let t := geo (rowAddr ir.2)
      let lat := optToPy t.1
      let lng := optToPy t.2.1
      let st1 := { st with
        cache := dictInsert (rowAddr ir.2)
          (.dict [("lat", lat), ("lng", lng), ("status", .str t.2.2)]) st.cache,
        calls := st.calls ++ [rowAddr ir.2],
        sleepTotal := st.sleepTotal + 11/10 }
      emitRow st1 ir.1 (rowName ir.2) (rowAddr ir.2) lat lng t.2.2

/-- The whole row loop of `main`, starting from the loaded cache. -/
def runRows (geo : String → Option ℚ × Option ℚ × String)
    (cache0 : List (String × PyVal)) (rows : List InputRow) : RunState :=
  (rows.enum).foldl (step geo) (initState cache0)

/-! ## Cache store: load and persist

`json.dumps` / `json.loads` of the standard library are external to the
repository; their round-trip contract is the identity at the JSON-value
level, so persistence is modelled on `PyVal`.  The cache file's state is
`Option (Option PyVal)`: `none` = file absent, `some none` = present but
`json.loads` raises, `some (some v)` = parses to `v`. -/

/-- The `cache` object after the load block of `main` (lines 73-78):
`{}` when the file is absent; `{}` when `json.loads` raises; otherwise the
parsed value. -/
def loadCacheVal : Option (Option PyVal) → PyVal
  | Option.none => .dict []
  | some Option.none => .dict []
  | some (some v) => v

/-- The entries of a loaded cache object.  A parseable non-object cache file
(a JSON list, string, number, …) is not modelled by this collapse to `[]`: in
Python such a `cache` raises at its first use on a non-skipped row (or, with
every row skipped, persists the non-dict value unchanged), so every theorem
about `mainRun` carries the hypothesis `cacheValWF (loadCacheVal _) = true`,
which requires the loaded value itself to be a JSON object and therefore
rules those files out. -/
def pyValEntries : PyVal → List (String × PyVal)
  | .dict d => d
  | _ => []

/-- Persisting `cache_file.write_text(json.dumps(cache, indent=2))` at the value level:
the persisted JSON value is the cache dict itself. -/
def persistCache (cache : List (String × PyVal)) : PyVal := .dict cache

/-! ## `main` end to end -/

structure Env where
  /-- Result of `Path(INPUT_XLSX).exists()` -/
  inputExists : Bool
  /-- Columns `df.columns` of the parsed spreadsheet -/
  columns : List String
  /-- State of `geocode_cache.json` (see `loadCacheVal`) -/
  cacheFile : Option (Option PyVal)
  /-- The spreadsheet rows, as the `str(...)` of their two cells -/
  rows : List InputRow

/-- One end-of-run file write, in program order. -/
inductive WriteEvent where
  | jsonOut (clubs : List Club)
  | csvReport (rows : List ReportRow)
  | cacheOut (v : PyVal)

/-- How `main` terminates: `sys.exit(1)` before any processing, an uncaught
exception in the loop (no output file written, interpreter exit status 1),
or normal completion with the three writes in order and the final exit code. -/
inductive MainResult where
  | fatal (code : Nat)
  | crashed
  | completed (writes : List WriteEvent) (exitCode : Nat)

/-- The test `c["lat"] is None or c["lng"] is None` -/
def clubMissing (c : Club) : Bool :=
  (match c.lat with | .none => true | _ => false) ||
  (match c.lng with | .none => true | _ => false)

/-- Function `main` of `geocode_clubs.py` over an abstract environment. -/
def mainRun (geo : String → Option ℚ × Option ℚ × String) (env : Env) : MainResult :=
  if env.inputExists = false then .fatal 1
  else if "CLUB" ∉ env.columns ∨ "ADDRESS" ∉ env.columns then .fatal 1
  else
    let st := runRows geo (pyValEntries (loadCacheVal env.cacheFile)) env.rows
    if st.crashed then .crashed
    else
      .completed
        [.jsonOut st.clubs, .csvReport st.report, .cacheOut (persistCache st.cache)]
        (if (st.clubs.filter clubMissing).length > 0 then 2 else 0)

/-- Every cached value is a JSON object — the data model's Cache Store shape
(`CacheEntry` values), under which the loop cannot raise. -/
def entriesWF (d : List (String × PyVal)) : Bool :=
  d.all (fun kv => kv.2.isDictB)

/-- The loaded cache value conforms to the data model's Cache Store: the value
is itself a JSON object, and every entry value in it is a JSON object.  A
non-object value — on which Python would raise at the first use of `cache`,
see `pyValEntries` — fails this predicate. -/
def cacheValWF : PyVal → Bool
  | .dict d => entriesWF d
  | _ => false

/-! ## Spec-side comparator for `normalizeAddress`

The spec describes `normalizeAddress` as "collapses any run of whitespace to a
single space and trims leading/trailing whitespace".  Its direct rendering:
the whitespace-free words of the input, joined by single spaces. -/

/-- The maximal runs of characters not satisfying `bad` (the "words"). -/
def wordsRec (b : Char → Bool) : List Char → List (List Char)
  | [] => []
  | c :: cs =>
    if b c then wordsRec b cs
    else (c :: cs.takeWhile (fun d => !b d)) :: wordsRec b (cs.dropWhile (fun d => !b d))
  termination_by l => l.length
  decreasing_by
    · simp
    · simp only [List.length_cons]
      exact Nat.lt_succ_of_le (List.dropWhile_suffix _).length_le

/-- Join chunks with a separator. -/
def joinWith (sep : List Char) : List (List Char) → List Char
  | [] => []
  | [w] => w
  | w :: ws => w ++ sep ++ joinWith sep ws

/-- Spec-side `normalizeAddress` as the spec words it: split into maximal
whitespace-free words, join with single spaces (this both collapses inner
runs and trims the ends). -/
def specNormalizeAddress (s : String) : String :=
  ⟨joinWith [' '] (wordsRec pyIsSpace s.data)⟩

/-- No two adjacent occurrences of `r`. -/
def noDup2 (r : Char) : List Char → Bool
  | [] => true
  | [_] => true
  | a :: b :: t => !(a == r && b == r) && noDup2 r (b :: t)

/-! ## Character-level lemmas -/

theorem pyToLower_eq_self {c : Char} (h : isLowerAlnum c = true) : pyToLower c = c := by
  unfold isLowerAlnum at h
  simp only [Bool.or_eq_true, Bool.and_eq_true, decide_eq_true_eq] at h
  unfold pyToLower Char.toLower
  rw [if_neg (by omega)]

theorem pyIsSpace_eq_false {c : Char} (h : isLowerAlnum c = true) : pyIsSpace c = false := by
  have h1 : c ≠ ' ' := by rintro rfl; exact absurd h (by decide)
  have h2 : c ≠ '\t' := by rintro rfl; exact absurd h (by decide)
  have h3 : c ≠ '\n' := by rintro rfl; exact absurd h (by decide)
  have h4 : c ≠ '\r' := by rintro rfl; exact absurd h (by decide)
  have h5 : c ≠ '\x0b' := by rintro rfl; exact absurd h (by decide)
  have h6 : c ≠ '\x0c' := by rintro rfl; exact absurd h (by decide)
  simp only [pyIsSpace, Bool.or_eq_false_iff, beq_eq_false_iff_ne, ne_eq]
  exact ⟨⟨⟨⟨⟨h1, h2⟩, h3⟩, h4⟩, h5⟩, h6⟩

/-! ## Lemmas about `squashAux` / `squashRuns` -/

section Squash

variable {bad : Char → Bool} {r : Char}

theorem squashAux_nil (fl : Bool) : squashAux bad r fl [] = [] := rfl

theorem squashAux_cons_good {c : Char} (h : bad c = false) (fl : Bool) (cs : List Char) :
    squashAux bad r fl (c :: cs) = c :: squashAux bad r false cs := by
  cases fl <;> simp [squashAux, h]

theorem squashAux_cons_bad_false {c : Char} (h : bad c = true) (cs : List Char) :
    squashAux bad r false (c :: cs) = r :: squashAux bad r true cs := by
  simp [squashAux, h]

theorem squashAux_cons_bad_true {c : Char} (h : bad c = true) (cs : List Char) :
    squashAux bad r true (c :: cs) = squashAux bad r true cs := by
  simp [squashAux, h]

theorem mem_squashAux {c : Char} :
    ∀ {l : List Char} {fl : Bool}, c ∈ squashAux bad r fl l →
      c = r ∨ (bad c = false ∧ c ∈ l) := by
  intro l
  induction l with
  | nil => intro fl h; simp [squashAux] at h
  | cons d cs ih =>
    intro fl h
    by_cases hd : bad d = true
    · cases fl with
      | true =>
        rw [squashAux_cons_bad_true hd] at h
        rcases ih h with h' | ⟨h1, h2⟩
        · exact Or.inl h'
        · exact Or.inr ⟨h1, List.mem_cons_of_mem _ h2⟩
      | false =>
        rw [squashAux_cons_bad_false hd] at h
        rcases List.mem_cons.mp h with h' | h'
        · exact Or.inl h'
        · rcases ih h' with h'' | ⟨h1, h2⟩
          · exact Or.inl h''
          · exact Or.inr ⟨h1, List.mem_cons_of_mem _ h2⟩
    · rw [Bool.not_eq_true] at hd
      rw [squashAux_cons_good hd] at h
      rcases List.mem_cons.mp h with h' | h'
      · exact Or.inr ⟨h' ▸ hd, h' ▸ List.mem_cons_self d cs⟩
      · rcases ih h' with h'' | ⟨h1, h2⟩
        · exact Or.inl h''
        · exact Or.inr ⟨h1, List.mem_cons_of_mem _ h2⟩

theorem head?_squashAux_true :
    ∀ {l : List Char} {c : Char}, (squashAux bad r true l).head? = some c → bad c = false := by
  intro l
  induction l with
  | nil => intro c h; simp [squashAux] at h
  | cons d cs ih =>
    intro c h
    by_cases hd : bad d = true
    · rw [squashAux_cons_bad_true hd] at h
      exact ih h
    · rw [Bool.not_eq_true] at hd
      rw [squashAux_cons_good hd] at h
      simp only [List.head?_cons, Option.some.injEq] at h
      exact h ▸ hd

theorem noDup2_cons_iff {a : Char} {t : List Char} :
    noDup2 r (a :: t) = true ↔
      (∀ b, t.head? = some b → ¬(a = r ∧ b = r)) ∧ noDup2 r t = true := by
  cases t with
  | nil => simp [noDup2]
  | cons b t2 =>
    simp only [noDup2, Bool.and_eq_true, Bool.not_eq_true', List.head?_cons]
    constructor
    · rintro ⟨h1, h2⟩
      refine ⟨fun b' hb' ⟨ha, hb⟩ => ?_, h2⟩
      obtain rfl : b = b' := by injection hb'
      rw [ha, hb] at h1
      simp at h1
    · rintro ⟨h1, h2⟩
      refine ⟨?_, h2⟩
      by_contra hne
      rw [Bool.not_eq_false, Bool.and_eq_true, beq_iff_eq, beq_iff_eq] at hne
      exact h1 b rfl hne

theorem noDup2_tail {a : Char} {t : List Char} (h : noDup2 r (a :: t) = true) :
    noDup2 r t = true := (noDup2_cons_iff.mp h).2

theorem noDup2_squashAux (hr : bad r = true) :
    ∀ (l : List Char) (fl : Bool), noDup2 r (squashAux bad r fl l) = true := by
  intro l
  induction l with
  | nil => intro fl; rfl
  | cons d cs ih =>
    intro fl
    by_cases hd : bad d = true
    · cases fl with
      | true => rw [squashAux_cons_bad_true hd]; exact ih true
      | false =>
        rw [squashAux_cons_bad_false hd]
        refine noDup2_cons_iff.mpr ⟨fun b hb ⟨_, hbr⟩ => ?_, ih true⟩
        have hgood := head?_squashAux_true hb
        rw [hbr, hr] at hgood
        exact absurd hgood (by decide)
    · rw [Bool.not_eq_true] at hd
      rw [squashAux_cons_good hd]
      refine noDup2_cons_iff.mpr ⟨fun b hb ⟨hdr, _⟩ => ?_, ih false⟩
      rw [hdr, hr] at hd
      exact absurd hd (by decide)

theorem squashAux_append_good :
    ∀ {w : List Char}, (∀ c ∈ w, bad c = false) → ∀ (l : List Char),
      squashAux bad r false (w ++ l) = w ++ squashAux bad r false l := by
  intro w
  induction w with
  | nil => intro _ l; rfl
  | cons d cs ih =>
    intro h l
    have hd : bad d = false := h d (List.mem_cons_self d cs)
    rw [List.cons_append, squashAux_cons_good hd,
      ih (fun c hc => h c (List.mem_cons_of_mem _ hc)) l]
    rfl

theorem squashAux_eq_self (hr : bad r = true) :
    ∀ {l : List Char}, (∀ c ∈ l, bad c = false ∨ c = r) → noDup2 r l = true →
      squashAux bad r false l = l := by
  intro l
  induction l with
  | nil => intro _ _; rfl
  | cons d cs ih =>
    intro hclean hnd
    rcases hclean d (List.mem_cons_self d cs) with hd | hd
    · rw [squashAux_cons_good hd,
        ih (fun c hc => hclean c (List.mem_cons_of_mem _ hc)) (noDup2_tail hnd)]
    · rw [hd, squashAux_cons_bad_false hr]
      have htail : squashAux bad r true cs = squashAux bad r false cs := by
        cases cs with
        | nil => rfl
        | cons e cs2 =>
          have he : bad e = false := by
            rcases hclean e (List.mem_cons_of_mem _ (List.mem_cons_self e cs2)) with h | h
            · exact h
            · exact absurd ⟨hd, h⟩ ((noDup2_cons_iff.mp hnd).1 e rfl)
          rw [squashAux_cons_good he, squashAux_cons_good he]
      rw [htail,
        ih (fun c hc => hclean c (List.mem_cons_of_mem _ hc)) (noDup2_tail hnd)]

end Squash

/-! ## Lemmas about `stripBoth` -/

theorem head?_dropWhile_false {p : Char → Bool} :
    ∀ {l : List Char} {c : Char}, (l.dropWhile p).head? = some c → p c = false := by
  intro l
  induction l with
  | nil => intro c h; simp [List.dropWhile] at h
  | cons d cs ih =>
    intro c h
    rw [List.dropWhile_cons] at h
    by_cases hd : p d = true
    · rw [if_pos hd] at h; exact ih h
    · rw [if_neg hd] at h
      obtain rfl : d = c := by injection h
      exact Bool.not_eq_true _ |>.mp hd

theorem prefix_head?_eq {l m : List Char} {c : Char} (h : l <+: m)
    (hc : l.head? = some c) : m.head? = some c := by
  obtain ⟨t, rfl⟩ := h
  cases l with
  | nil => simp at hc
  | cons a l' => exact hc

theorem mem_of_head?_eq {l : List Char} {c : Char} (h : l.head? = some c) : c ∈ l := by
  cases l with
  | nil => simp at h
  | cons a t =>
    obtain rfl : a = c := by injection h
    exact List.mem_cons_self a t

theorem mem_of_getLast?_eq {l : List Char} {c : Char} (h : l.getLast? = some c) : c ∈ l := by
  rw [List.getLast?_eq_head?_reverse] at h
  exact List.mem_reverse.mp (mem_of_head?_eq h)

theorem stripBoth_reverse (p : Char → Bool) (l : List Char) :
    (stripBoth p l).reverse = (l.dropWhile p).reverse.dropWhile p := by
  unfold stripBoth List.rdropWhile
  rw [List.reverse_reverse]

theorem head?_stripBoth {p : Char → Bool} {l : List Char} {c : Char}
    (h : (stripBoth p l).head? = some c) : p c = false :=
  head?_dropWhile_false (prefix_head?_eq ( List.rdropWhile_prefix p _) h)

theorem getLast?_stripBoth {p : Char → Bool} {l : List Char} {c : Char}
    (h : (stripBoth p l).getLast? = some c) : p c = false := by
  rw [List.getLast?_eq_head?_reverse, stripBoth_reverse] at h
  exact head?_dropWhile_false h

theorem dropWhile_eq_self_of_head {p : Char → Bool} {l : List Char}
    (h : ∀ c, l.head? = some c → p c = false) : l.dropWhile p = l := by
  cases l with
  | nil => rfl
  | cons a t => rw [List.dropWhile_cons, if_neg (by simp [h a rfl])]

theorem stripBoth_eq_self {p : Char → Bool} {l : List Char}
    (hh : ∀ c, l.head? = some c → p c = false)
    (hl : ∀ c, l.getLast? = some c → p c = false) : stripBoth p l = l := by
  unfold stripBoth List.rdropWhile
  rw [dropWhile_eq_self_of_head hh,
    dropWhile_eq_self_of_head
      (fun c hc => hl c (by rw [List.getLast?_eq_head?_reverse]; exact hc)),
    List.reverse_reverse]

theorem mem_stripBoth {p : Char → Bool} {l : List Char} {c : Char}
    (h : c ∈ stripBoth p l) : c ∈ l :=
  (List.dropWhile_suffix p).subset (( List.rdropWhile_prefix p _).subset h)

theorem stripBoth_eq_self_of_all {p : Char → Bool} {l : List Char}
    (h : ∀ c ∈ l, p c = false) : stripBoth p l = l :=
  stripBoth_eq_self (fun c hc => h c (mem_of_head?_eq hc))
    (fun c hc => h c (mem_of_getLast?_eq hc))

theorem map_eq_self_of {f : Char → Char} :
    ∀ {l : List Char}, (∀ c ∈ l, f c = c) → l.map f = l := by
  intro l
  induction l with
  | nil => intro _; rfl
  | cons a t ih =>
    intro h
    rw [List.map_cons, h a (List.mem_cons_self a t),
      ih (fun c hc => h c (List.mem_cons_of_mem _ hc))]

theorem noDup2_of_suffix {r : Char} {l m : List Char} (h : l <:+ m)
    (hm : noDup2 r m = true) : noDup2 r l = true := by
  obtain ⟨t, rfl⟩ := h
  induction t with
  | nil => exact hm
  | cons a t' ih => exact ih (noDup2_tail hm)

theorem prefix_noDup2 {r : Char} {l m : List Char} (h : l <+: m)
    (hm : noDup2 r m = true) : noDup2 r l = true := by
  obtain ⟨t, rfl⟩ := h
  induction l with
  | nil => rfl
  | cons a l' ih =>
    rw [List.cons_append] at hm
    have h1 := noDup2_cons_iff.mp hm
    refine noDup2_cons_iff.mpr ⟨fun b hb => ?_, ih h1.2⟩
    refine h1.1 b ?_
    cases l' with
    | nil => simp at hb
    | cons e l'' => exact hb

/-! ## `slugify`: the C6 contract -/

/-- The list `text.strip("-")` just before `slugify`'s final fallback test. -/
def slugCore (s : String) : List Char :=
  stripBoth (fun c => c == '-')
    (squashRuns (fun c => !isLowerAlnum c) '-' ((stripBoth pyIsSpace s.data).map pyToLower))

theorem slugify_eq_core (s : String) :
    slugify s = if (slugCore s).isEmpty then "club" else ⟨slugCore s⟩ := rfl

theorem mem_slugCore {s : String} {c : Char} (h : c ∈ slugCore s) :
    isLowerAlnum c = true ∨ c = '-' := by
  have h1 := mem_stripBoth h
  rcases mem_squashAux h1 with h2 | ⟨h2, _⟩
  · exact Or.inr h2
  · exact Or.inl (by simpa using h2)

theorem noDup2_slugCore (s : String) : noDup2 '-' (slugCore s) = true := by
  refine prefix_noDup2 ( List.rdropWhile_prefix _ _)
    (noDup2_of_suffix (List.dropWhile_suffix _) ?_)
  exact noDup2_squashAux (by decide) _ false

theorem head?_slugCore {s : String} {c : Char} (h : (slugCore s).head? = some c) :
    c ≠ '-' := by
  have := head?_stripBoth h
  simpa using this

theorem getLast?_slugCore {s : String} {c : Char} (h : (slugCore s).getLast? = some c) :
    c ≠ '-' := by
  have := getLast?_stripBoth h
  simpa using this

theorem slugify_fixed {u : List Char}
    (hchars : ∀ c ∈ u, isLowerAlnum c = true ∨ c = '-')
    (hh : ∀ c, u.head? = some c → c ≠ '-')
    (hl : ∀ c, u.getLast? = some c → c ≠ '-')
    (hnd : noDup2 '-' u = true)
    (hne : u ≠ []) : slugify ⟨u⟩ = ⟨u⟩ := by
  have hdata : (String.mk u).data = u := rfl
  have hstrip : stripBoth pyIsSpace u = u := by
    refine stripBoth_eq_self_of_all (fun c hc => ?_)
    rcases hchars c hc with h | h
    · exact pyIsSpace_eq_false h
    · subst h; decide
  have hmap : u.map pyToLower = u := by
    refine map_eq_self_of (fun c hc => ?_)
    rcases hchars c hc with h | h
    · exact pyToLower_eq_self h
    · subst h; decide
  have hsq : squashRuns (fun c => !isLowerAlnum c) '-' u = u := by
    refine squashAux_eq_self (by decide) (fun c hc => ?_) hnd
    rcases hchars c hc with h | h
    · exact Or.inl (by simp [h])
    · exact Or.inr h
  have hstrip2 : stripBoth (fun c => c == '-') u = u := by
    refine stripBoth_eq_self (fun c hc => ?_) (fun c hc => ?_)
    · simpa using hh c hc
    · simpa using hl c hc
  rw [slugify_eq_core]
  unfold slugCore
  rw [hdata, hstrip, hmap, hsq, hstrip2, if_neg (by simp [hne])]

theorem slugify_ne_empty (s : String) : slugify s ≠ "" := by
  rw [slugify_eq_core]
  split
  · decide
  · rename_i h
    intro he
    have hd : slugCore s = [] := congrArg String.data he
    exact h (by simp [hd])

theorem slugify_chars (s : String) :
    ∀ c ∈ (slugify s).data, isLowerAlnum c = true ∨ c = '-' := by
  rw [slugify_eq_core]
  split
  · decide
  · exact fun c hc => mem_slugCore hc

theorem slugify_head (s : String) :
    ∀ c, (slugify s).data.head? = some c → c ≠ '-' := by
  rw [slugify_eq_core]
  split
  · intro c h
    obtain rfl : 'c' = c := by injection h
    decide
  · exact fun c h => head?_slugCore h

theorem slugify_last (s : String) :
    ∀ c, (slugify s).data.getLast? = some c → c ≠ '-' := by
  rw [slugify_eq_core]
  split
  · intro c h
    have hb : ("club".data).getLast? = some 'b' := by decide
    rw [hb] at h
    obtain rfl : 'b' = c := by injection h
    decide
  · exact fun c h => getLast?_slugCore h

theorem noDup2_slugify (s : String) : noDup2 '-' (slugify s).data = true := by
  rw [slugify_eq_core]
  split
  · decide
  · exact noDup2_slugCore s

theorem slugify_idem (s : String) : slugify (slugify s) = slugify s := by
  rw [slugify_eq_core s]
  split
  · decide
  · rename_i h
    exact slugify_fixed (fun c hc => mem_slugCore hc) (fun c hc => head?_slugCore hc)
      (fun c hc => getLast?_slugCore hc) (noDup2_slugCore s)
      (fun e => h (by simp [e]))

/-! ## `wordsRec` / `joinWith`: equivalence of `normalize_address` with the
spec-side description (C8) -/

section Words

variable {bad : Char → Bool} {r : Char}

theorem wordsRec_nil : wordsRec bad [] = [] := by rw [wordsRec]

theorem wordsRec_cons_bad {c : Char} (h : bad c = true) (cs : List Char) :
    wordsRec bad (c :: cs) = wordsRec bad cs := by
  rw [wordsRec]; simp [h]

theorem wordsRec_cons_good {c : Char} (h : bad c = false) (cs : List Char) :
    wordsRec bad (c :: cs) =
      (c :: cs.takeWhile (fun d => !bad d)) ::
        wordsRec bad (cs.dropWhile (fun d => !bad d)) := by
  rw [wordsRec]; simp [h]

theorem wordsRec_eq_nil_of_all :
    ∀ {l : List Char}, (∀ c ∈ l, bad c = true) → wordsRec bad l = [] := by
  intro l
  induction l using wordsRec.induct (b := bad) with
  | case1 => intro _; exact wordsRec_nil
  | case2 c cs hc ih =>
    intro h
    rw [wordsRec_cons_bad hc]
    exact ih (fun x hx => h x (List.mem_cons_of_mem _ hx))
  | case3 c cs hc _ =>
    intro h
    exact absurd (h c (List.mem_cons_self c cs)) hc

theorem wordsRec_ne_nil {l : List Char} {c : Char} (hc : c ∈ l) (hg : bad c = false) :
    wordsRec bad l ≠ [] := by
  revert hc
  induction l using wordsRec.induct (b := bad) with
  | case1 => intro hc; simp at hc
  | case2 d cs hd ih =>
    intro hc
    rw [wordsRec_cons_bad hd]
    rcases List.mem_cons.mp hc with rfl | hc'
    · rw [hd] at hg; exact absurd hg (by decide)
    · exact ih hc'
  | case3 d cs hd _ =>
    intro _
    rw [wordsRec_cons_good (by simpa using hd)]
    exact List.cons_ne_nil _ _

theorem wordsRec_dropWhile_bad (l : List Char) :
    wordsRec bad (l.dropWhile bad) = wordsRec bad l := by
  induction l with
  | nil => rfl
  | cons c cs ih =>
    rw [List.dropWhile_cons]
    by_cases h : bad c = true
    · rw [if_pos h, ih, wordsRec_cons_bad h]
    · rw [if_neg h]

theorem head?_append_left {xs ys : List Char} (h : xs ≠ []) :
    (xs ++ ys).head? = xs.head? := by
  cases xs with
  | nil => exact absurd rfl h
  | cons a t => rfl

theorem getLast?_append_right {xs ys : List Char} (h : ys ≠ []) :
    (xs ++ ys).getLast? = ys.getLast? := by
  rw [List.getLast?_eq_head?_reverse, List.getLast?_eq_head?_reverse,
    List.reverse_append]
  exact head?_append_left (by simpa using h)

theorem joinWith_cons_ne {sep : List Char} {w : List Char} {ws : List (List Char)}
    (h : ws ≠ []) : joinWith sep (w :: ws) = w ++ sep ++ joinWith sep ws := by
  cases ws with
  | nil => exact absurd rfl h
  | cons a t => rfl

theorem takeWhile_all {p : Char → Bool} :
    ∀ {l : List Char}, (∀ x ∈ l, p x = true) → l.takeWhile p = l := by
  intro l
  induction l with
  | nil => intro _; rfl
  | cons a t ih =>
    intro h
    rw [List.takeWhile_cons, if_pos (h a (List.mem_cons_self a t)),
      ih (fun x hx => h x (List.mem_cons_of_mem _ hx))]

theorem dropWhile_all {p : Char → Bool} :
    ∀ {l : List Char}, (∀ x ∈ l, p x = true) → l.dropWhile p = [] := by
  intro l
  induction l with
  | nil => intro _; rfl
  | cons a t ih =>
    intro h
    rw [List.dropWhile_cons, if_pos (h a (List.mem_cons_self a t))]
    exact ih (fun x hx => h x (List.mem_cons_of_mem _ hx))

theorem takeWhile_append_all {p : Char → Bool} {xs : List Char}
    (h : ∀ x ∈ xs, p x = true) (ys : List Char) :
    (xs ++ ys).takeWhile p = xs ++ ys.takeWhile p := by
  induction xs with
  | nil => rfl
  | cons a t ih =>
    rw [List.cons_append, List.takeWhile_cons,
      if_pos (h a (List.mem_cons_self a t)),
      ih (fun x hx => h x (List.mem_cons_of_mem _ hx))]
    rfl

theorem dropWhile_append_all {p : Char → Bool} {xs : List Char}
    (h : ∀ x ∈ xs, p x = true) (ys : List Char) :
    (xs ++ ys).dropWhile p = ys.dropWhile p := by
  induction xs with
  | nil => rfl
  | cons a t ih =>
    rw [List.cons_append, List.dropWhile_cons,
      if_pos (h a (List.mem_cons_self a t)),
      ih (fun x hx => h x (List.mem_cons_of_mem _ hx))]

theorem takeWhile_nil_of_head {p : Char → Bool} {l : List Char}
    (h : ∀ c, l.head? = some c → p c = false) : l.takeWhile p = [] := by
  cases l with
  | nil => rfl
  | cons a t => rw [List.takeWhile_cons, if_neg (by simp [h a rfl])]

/-- Appending a block of `bad` characters does not change the word list. -/
theorem wordsRec_append_bads :
    ∀ (n : Nat) (m : List Char), m.length ≤ n → ∀ {bads : List Char},
      (∀ c ∈ bads, bad c = true) → wordsRec bad (m ++ bads) = wordsRec bad m := by
  intro n
  induction n with
  | zero =>
    intro m hm bads hb
    obtain rfl : m = [] := List.length_eq_zero.mp (Nat.le_zero.mp hm)
    rw [List.nil_append, wordsRec_nil]
    exact wordsRec_eq_nil_of_all hb
  | succ n ih =>
    intro m hm bads hb
    cases m with
    | nil =>
      rw [List.nil_append, wordsRec_nil]
      exact wordsRec_eq_nil_of_all hb
    | cons c cs =>
      have hcs_len : cs.length ≤ n := by
        simp only [List.length_cons] at hm; omega
      by_cases hc : bad c = true
      · rw [List.cons_append, wordsRec_cons_bad hc, wordsRec_cons_bad hc]
        exact ih cs hcs_len hb
      · replace hc : bad c = false := by simpa using hc
        rw [List.cons_append, wordsRec_cons_good hc, wordsRec_cons_good hc]
        by_cases hall : ∀ x ∈ cs, bad x = false
        · have h1 : (cs ++ bads).takeWhile (fun d => !bad d) = cs := by
            rw [takeWhile_append_all (by simp [hall] at *; exact fun x hx => hall x hx) bads,
              takeWhile_nil_of_head (fun x hx => by simp [hb x (mem_of_head?_eq hx)]),
              List.append_nil]
          have h2 : (cs ++ bads).dropWhile (fun d => !bad d) = bads := by
            rw [dropWhile_append_all (fun x hx => by simp [hall x hx]) bads]
            exact dropWhile_eq_self_of_head (fun x hx => by simp [hb x (mem_of_head?_eq hx)])
          rw [h1, h2, takeWhile_all (fun x hx => by simp [hall x hx]),
            dropWhile_all (fun x hx => by simp [hall x hx]), wordsRec_nil,
            wordsRec_eq_nil_of_all hb]
        · have hdrop_ne : cs.dropWhile (fun d => !bad d) ≠ [] := by
            intro he
            refine hall (fun x hx => ?_)
            have := List.dropWhile_eq_nil_iff.mp he x hx
            simpa using this
          have h1 : (cs ++ bads).takeWhile (fun d => !bad d) =
              cs.takeWhile (fun d => !bad d) := by
            rw [List.takeWhile_append, if_neg]
            intro he
            refine hall (fun x hx => ?_)
            have heq : cs.takeWhile (fun d => !bad d) = cs :=
              ( List.takeWhile_prefix _).eq_of_length he
            have hx' : x ∈ cs.takeWhile (fun d => !bad d) := by rw [heq]; exact hx
            simpa using List.mem_takeWhile_imp hx'
          have h2 : (cs ++ bads).dropWhile (fun d => !bad d) =
              cs.dropWhile (fun d => !bad d) ++ bads := by
            rw [List.dropWhile_append, if_neg (by simp [hdrop_ne])]
          rw [h1, h2]
          have hlen : (cs.dropWhile (fun d => !bad d)).length ≤ n :=
            le_trans (List.dropWhile_suffix _).length_le hcs_len
          rw [ih _ hlen hb]

/-- Removing trailing `bad` characters does not change the word list. -/
theorem wordsRec_rdropWhile (m : List Char) :
    wordsRec bad (m.rdropWhile bad) = wordsRec bad m := by
  have hbads : ∀ c ∈ (m.reverse.takeWhile bad).reverse, bad c = true :=
    fun c hc => List.mem_takeWhile_imp (List.mem_reverse.mp hc)
  have hdecomp : m = m.rdropWhile bad ++ (m.reverse.takeWhile bad).reverse := by
    conv_lhs => rw [← List.reverse_reverse m,
      ← List.takeWhile_append_dropWhile bad m.reverse]
    rw [List.reverse_append]
    rfl
  calc wordsRec bad (m.rdropWhile bad)
      = wordsRec bad (m.rdropWhile bad ++ (m.reverse.takeWhile bad).reverse) :=
        (wordsRec_append_bads (m.rdropWhile bad).length _ le_rfl hbads).symm
    _ = wordsRec bad m := by rw [← hdecomp]

/-- Stripping both ends of `bad` characters does not change the word list. -/
theorem wordsRec_stripBoth (l : List Char) :
    wordsRec bad (stripBoth bad l) = wordsRec bad l := by
  unfold stripBoth
  rw [wordsRec_rdropWhile, wordsRec_dropWhile_bad]

/-- On a list with no trailing `bad` character, the run-squashing state machine
produces the words joined by single `r`s (in the `inRun := false` start state
this additionally needs no leading `bad` character). -/
theorem squashAux_joinWith (bad : Char → Bool) (r : Char) :
    ∀ (n : Nat) (l : List Char), l.length ≤ n →
      (∀ c, l.getLast? = some c → bad c = false) →
      squashAux bad r true l = joinWith [r] (wordsRec bad l) ∧
      ((∀ c, l.head? = some c → bad c = false) →
        squashAux bad r false l = joinWith [r] (wordsRec bad l)) := by
  intro n
  induction n with
  | zero =>
    intro l hl _
    obtain rfl : l = [] := List.length_eq_zero.mp (Nat.le_zero.mp hl)
    rw [wordsRec_nil]
    exact ⟨rfl, fun _ => rfl⟩
  | succ n ih =>
    intro l hl htail
    cases l with
    | nil =>
      rw [wordsRec_nil]
      exact ⟨rfl, fun _ => rfl⟩
    | cons c cs =>
      have hcs_len : cs.length ≤ n := by
        simp only [List.length_cons] at hl; omega
      by_cases hc : bad c = true
      · -- leading bad character: only the `inRun := true` part is available
        have htrue : squashAux bad r true (c :: cs) =
            joinWith [r] (wordsRec bad (c :: cs)) := by
          rw [squashAux_cons_bad_true hc, wordsRec_cons_bad hc]
          cases cs with
          | nil => exact absurd (htail c (by simp)) (by simp [hc])
          | cons e cs2 =>
            refine (ih (e :: cs2) hcs_len (fun x hx => htail x ?_)).1
            rw [show (c :: e :: cs2) = [c] ++ (e :: cs2) from rfl,
              getLast?_append_right (by simp)]
            exact hx
        exact ⟨htrue, fun hhead => absurd (hhead c rfl) (by simp [hc])⟩
      · replace hc : bad c = false := by simpa using hc
        obtain ⟨w, hw⟩ : ∃ w, cs.takeWhile (fun d => !bad d) = w := ⟨_, rfl⟩
        obtain ⟨rest, hrest⟩ : ∃ rest, cs.dropWhile (fun d => !bad d) = rest := ⟨_, rfl⟩
        have hw_good : ∀ x ∈ w, bad x = false := by
          intro x hx
          rw [← hw] at hx
          simpa using List.mem_takeWhile_imp hx
        have hcs : w ++ rest = cs := by rw [← hw, ← hrest]; exact List.takeWhile_append_dropWhile _ _
        have hsq : squashAux bad r false cs = w ++ squashAux bad r false rest := by
          rw [← hcs]; exact squashAux_append_good hw_good rest
        have hE : squashAux bad r false (c :: cs) =
            joinWith [r] (wordsRec bad (c :: cs)) := by
          rw [squashAux_cons_good hc, wordsRec_cons_good hc, hw, hrest, hsq]
          cases rest with
          | nil => rw [squashAux_nil, wordsRec_nil, List.append_nil]; rfl
          | cons b rest2 =>
            have hb : bad b = true := by
              have hhead : (cs.dropWhile (fun d => !bad d)).head? = some b := by
                rw [hrest]; rfl
              simpa using head?_dropWhile_false hhead
            have hlast_eq : (c :: cs).getLast? = (b :: rest2).getLast? := by
              conv_lhs => rw [← hcs]
              rw [show c :: (w ++ b :: rest2) = (c :: w) ++ (b :: rest2) from by
                simp, getLast?_append_right (by simp)]
            have hrest2_ne : rest2 ≠ [] := by
              rintro rfl
              have := htail b (by rw [hlast_eq]; rfl)
              simp [hb] at this
            have htail2 : ∀ x, rest2.getLast? = some x → bad x = false := by
              intro x hx
              refine htail x ?_
              rw [hlast_eq, show (b :: rest2) = [b] ++ rest2 from rfl,
                getLast?_append_right hrest2_ne]
              exact hx
            have hlen2 : rest2.length ≤ n := by
              have h1 : (w ++ b :: rest2).length = cs.length := by rw [hcs]
              simp only [List.length_append, List.length_cons] at h1
              omega
            have hIH := (ih rest2 hlen2 htail2).1
            have hwne : wordsRec bad rest2 ≠ [] := by
              obtain ⟨x, hx⟩ : ∃ x, rest2.getLast? = some x := by
                have := List.getLast?_isSome.mpr hrest2_ne
                exact Option.isSome_iff_exists.mp this
              exact wordsRec_ne_nil (mem_of_getLast?_eq hx) (htail2 x hx)
            rw [squashAux_cons_bad_false hb, hIH, wordsRec_cons_bad hb,
              joinWith_cons_ne hwne]
            simp
        refine ⟨?_, fun _ => hE⟩
        calc squashAux bad r true (c :: cs)
            = c :: squashAux bad r false cs := squashAux_cons_good hc true cs
          _ = squashAux bad r false (c :: cs) := (squashAux_cons_good hc false cs).symm
          _ = joinWith [r] (wordsRec bad (c :: cs)) := hE

end Words

/-! ## Claim theorems: C6 and C8 (the Normalizer) -/

/-- C6: for every input string, `slugify`'s result is non-empty, consists
only of characters from `[a-z0-9-]` (so it matches `^[a-z0-9-]*$`, the
`"club"` fallback included), never starts or ends with a hyphen, and
`slugify` is idempotent: `slugify (slugify s) = slugify s`. -/
theorem claim_C6_slugify (s : String) :
    slugify s ≠ "" ∧
    (∀ c ∈ (slugify s).data, isLowerAlnum c = true ∨ c = '-') ∧
    (∀ c, (slugify s).data.head? = some c → c ≠ '-') ∧
    (∀ c, (slugify s).data.getLast? = some c → c ≠ '-') ∧
    slugify (slugify s) = slugify s :=
  ⟨slugify_ne_empty s, slugify_chars s, slugify_head s, slugify_last s,
    slugify_idem s⟩

/-- C8: `normalize_address` collapses each maximal whitespace run to a
single space and strips both ends — stated as equality with the spec-side
`specNormalizeAddress` (words joined by single spaces) — and the empty input
and the spec's worked example behave as claimed. -/
theorem claim_C8_normalize_address (s : String) :
    normalize_address s = specNormalizeAddress s ∧
    normalize_address "" = "" ∧
    normalize_address " 1  Main   St " = "1 Main St" := by
  refine ⟨?_, by decide, by decide⟩
  unfold normalize_address specNormalizeAddress squashRuns
  refine congrArg String.mk ?_
  rw [(squashAux_joinWith pyIsSpace ' ' (stripBoth pyIsSpace s.data).length
      (stripBoth pyIsSpace s.data) le_rfl (fun c hc => getLast?_stripBoth hc)).2
      (fun c hc => head?_stripBoth hc),
    wordsRec_stripBoth]

/-! ## C3: the geocoder's response classification -/

/-- Outcome shape `(null, null, "HTTP <code>")`. -/
def httpShape (t : Option ℚ × Option ℚ × String) : Prop :=
  ∃ code : Nat, t = (Option.none, Option.none, "HTTP " ++ toString code)

/-- Outcome shape `(null, null, "No result")`. -/
def noResultShape (t : Option ℚ × Option ℚ × String) : Prop :=
  t = (Option.none, Option.none, "No result")

/-- Outcome shape `(lat, lng, "OK")`. -/
def okShape (t : Option ℚ × Option ℚ × String) : Prop :=
  ∃ la lo : ℚ, t = (some la, some lo, "OK")

/-- Outcome shape `(null, null, "Parse error: <detail>")`. -/
def parseErrorShape (t : Option ℚ × Option ℚ × String) : Prop :=
  ∃ e : String, t = (Option.none, Option.none, "Parse error: " ++ e)

/-- The triple realises exactly one of the four outcome shapes. -/
def ExactlyOneShape (t : Option ℚ × Option ℚ × String) : Prop :=
  (httpShape t ∨ noResultShape t ∨ okShape t ∨ parseErrorShape t) ∧
  ¬(httpShape t ∧ noResultShape t) ∧ ¬(httpShape t ∧ okShape t) ∧
  ¬(httpShape t ∧ parseErrorShape t) ∧ ¬(noResultShape t ∧ okShape t) ∧
  ¬(noResultShape t ∧ parseErrorShape t) ∧ ¬(okShape t ∧ parseErrorShape t)

theorem head_http (c : Nat) : ("HTTP " ++ toString c).data.head? = some 'H' := by
  rw [String.data_append]
  exact head?_append_left (by decide)

theorem head_parse (e : String) :
    ("Parse error: " ++ e).data.head? = some 'P' := by
  rw [String.data_append]
  exact head?_append_left (by decide)

theorem shapes_exclusive (t : Option ℚ × Option ℚ × String) :
    ¬(httpShape t ∧ noResultShape t) ∧ ¬(httpShape t ∧ okShape t) ∧
    ¬(httpShape t ∧ parseErrorShape t) ∧ ¬(noResultShape t ∧ okShape t) ∧
    ¬(noResultShape t ∧ parseErrorShape t) ∧ ¬(okShape t ∧ parseErrorShape t) := by
  refine ⟨?_, ?_, ?_, ?_, ?_, ?_⟩
  · rintro ⟨⟨c, rfl⟩, h2⟩
    have := congrArg (fun t : Option ℚ × Option ℚ × String => t.2.2.data.head?) h2
    dsimp only at this
    rw [head_http] at this
    simp at this
  · rintro ⟨⟨c, rfl⟩, ⟨la, lo, h2⟩⟩
    simp at h2
  · rintro ⟨⟨c, rfl⟩, ⟨e, h2⟩⟩
    have := congrArg (fun t : Option ℚ × Option ℚ × String => t.2.2.data.head?) h2
    dsimp only at this
    rw [head_http, head_parse] at this
    simp at this
  · rintro ⟨rfl, ⟨la, lo, h2⟩⟩
    simp at h2
  · rintro ⟨rfl, ⟨e, h2⟩⟩
    have := congrArg (fun t : Option ℚ × Option ℚ × String => t.2.2.data.head?) h2
    dsimp only at this
    rw [head_parse] at this
    simp at this
  · rintro ⟨⟨la, lo, h1⟩, ⟨e, h2⟩⟩
    rw [h1] at h2
    simp at h2

/-- C3: `nominatim_geocode` classifies every response into exactly one of
the four outcome shapes, with the guard conditions the claim names: a
non-success HTTP status gives `(null, null, "HTTP <code>")`; a success
response with an empty result list gives `(null, null, "No result")`; a
success response with at least one result gives `(lat, lng, "OK")` when the
first result's lat/lon parse, and `(null, null, "Parse error: <detail>")` on
any parse failure — never an abort. -/
theorem claim_C3_geocode_classification (pf : String → Option ℚ) (r : HttpResp) :
    (r.ok = false →
      nominatim_geocode pf r =
        (Option.none, Option.none, "HTTP " ++ toString r.status_code)) ∧
    (r.ok = true → r.body = PyVal.list [] →
      nominatim_geocode pf r = (Option.none, Option.none, "No result")) ∧
    (r.ok = true → ∀ x xs, r.body = PyVal.list (x :: xs) →
      (∃ la lo, tryLatLon pf r.body = Except.ok (la, lo) ∧
        nominatim_geocode pf r = (some la, some lo, "OK")) ∨
      (∃ e, tryLatLon pf r.body = Except.error e ∧
        nominatim_geocode pf r = (Option.none, Option.none, "Parse error: " ++ e))) ∧
    ExactlyOneShape (nominatim_geocode pf r) := by
  refine ⟨?_, ?_, ?_, ?_, shapes_exclusive _⟩
  · intro h
    simp [nominatim_geocode, h]
  · intro h hbody
    simp [nominatim_geocode, h, hbody, pyTruthy]
  · intro h x xs hbody
    have htr : pyTruthy r.body = true := by rw [hbody]; simp [pyTruthy]
    cases he : tryLatLon pf r.body with
    | ok p =>
      refine Or.inl ⟨p.1, p.2, by rw [← he], ?_⟩
      simp [nominatim_geocode, h, htr, he]
    | error e =>
      refine Or.inr ⟨e, rfl, ?_⟩
      simp [nominatim_geocode, h, htr, he]
  · by_cases h : r.ok = true
    · by_cases ht : pyTruthy r.body = true
      · cases he : tryLatLon pf r.body with
        | ok p =>
          refine Or.inr (Or.inr (Or.inl ⟨p.1, p.2, ?_⟩))
          simp [nominatim_geocode, h, ht, he]
        | error e =>
          refine Or.inr (Or.inr (Or.inr ⟨e, ?_⟩))
          simp [nominatim_geocode, h, ht, he]
      · refine Or.inr (Or.inl ?_)
        simp only [Bool.not_eq_true] at ht
        simp [noResultShape, nominatim_geocode, h, ht]
    · simp only [Bool.not_eq_true] at h
      exact Or.inl ⟨r.status_code, by simp [nominatim_geocode, h]⟩

/-- Witness for C3: concrete responses exercising the HTTP-error and
empty-result rules. -/
theorem claim_C3_geocode_classification_witness :
    nominatim_geocode (fun _ => Option.none) ⟨false, 404, PyVal.list []⟩ =
      (Option.none, Option.none, "HTTP 404") ∧
    nominatim_geocode (fun _ => Option.none) ⟨true, 200, PyVal.list []⟩ =
      (Option.none, Option.none, "No result") :=
  ⟨(claim_C3_geocode_classification (fun _ => Option.none)
      ⟨false, 404, PyVal.list []⟩).1 rfl,
   (claim_C3_geocode_classification (fun _ => Option.none)
      ⟨true, 200, PyVal.list []⟩).2.1 rfl rfl⟩

/-! ## Pipeline lemmas: the four row outcomes -/

theorem step_crashed {geo : String → Option ℚ × Option ℚ × String} {st : RunState}
    {ir : Nat × InputRow} (h : st.crashed = true) : step geo st ir = st := by
  simp [step, h]

theorem step_skip {geo : String → Option ℚ × Option ℚ × String} {st : RunState}
    {i : Nat} {row : InputRow} (hc : st.crashed = false) (h : skipCond row) :
    step geo st (i, row) =
      { st with report := st.report ++
          [⟨i, rowName row, rowAddr row, "Skipped (missing name/address)",
            .str "", .str ""⟩] } := by
  simp [step, hc, h]

theorem step_hit {geo : String → Option ℚ × Option ℚ × String} {st : RunState}
    {i : Nat} {row : InputRow} {d : List (String × PyVal)}
    (hc : st.crashed = false) (hs : ¬ skipCond row)
    (hl : st.cache.lookup (rowAddr row) = some (PyVal.dict d)) :
    step geo st (i, row) =
      emitRow st i (rowName row) (rowAddr row)
        (dictGetD d "lat") (dictGetD d "lng") "OK (cached)" := by
  simp [step, hc, hs, hl]

theorem step_hit_crash {geo : String → Option ℚ × Option ℚ × String} {st : RunState}
    {i : Nat} {row : InputRow} {e : PyVal}
    (hc : st.crashed = false) (hs : ¬ skipCond row)
    (hl : st.cache.lookup (rowAddr row) = some e) (he : e.isDictB = false) :
    step geo st (i, row) = { st with crashed := true } := by
  cases e <;> simp_all [step, PyVal.isDictB]

theorem step_miss {geo : String → Option ℚ × Option ℚ × String} {st : RunState}
    {i : Nat} {row : InputRow}
    (hc : st.crashed = false) (hs : ¬ skipCond row)
    (hl : st.cache.lookup (rowAddr row) = Option.none) :
    step geo st (i, row) =
      emitRow { st with
          cache := dictInsert (rowAddr row)
            (.dict [("lat", optToPy (geo (rowAddr row)).1),
                    ("lng", optToPy (geo (rowAddr row)).2.1),
                    ("status", .str (geo (rowAddr row)).2.2)]) st.cache,
          calls := st.calls ++ [rowAddr row],
          sleepTotal := st.sleepTotal + 11/10 }
        i (rowName row) (rowAddr row) (optToPy (geo (rowAddr row)).1)
        (optToPy (geo (rowAddr row)).2.1) (geo (rowAddr row)).2.2 := by
  simp [step, hc, hs, hl]

/-! ## Lookup / insert lemmas for the cache dict -/

theorem lookup_mem {d : List (String × PyVal)} {a : String} {e : PyVal}
    (h : d.lookup a = some e) : (a, e) ∈ d := by
  induction d with
  | nil => simp at h
  | cons p t ih =>
    obtain ⟨k, v⟩ := p
    by_cases hk : a = k
    · subst hk
      simp [List.lookup] at h
      rw [h]
      exact List.mem_cons_self _ _
    · have hne : (a == k) = false := beq_eq_false_iff_ne.mpr hk
      simp [List.lookup, hne] at h
      exact List.mem_cons_of_mem _ (ih h)

theorem lookup_append_some {d d2 : List (String × PyVal)} {a : String} {e : PyVal}
    (h : d.lookup a = some e) : (d ++ d2).lookup a = some e := by
  induction d with
  | nil => simp at h
  | cons p t ih =>
    obtain ⟨k, v⟩ := p
    by_cases hk : a = k
    · subst hk
      simp [List.lookup] at h ⊢
      exact h
    · have hne : (a == k) = false := beq_eq_false_iff_ne.mpr hk
      simp [List.lookup, hne] at h ⊢
      exact ih h

theorem lookup_append_right_fresh {d : List (String × PyVal)} {k : String} {v : PyVal}
    (h : d.lookup k = Option.none) : (d ++ [(k, v)]).lookup k = some v := by
  induction d with
  | nil => simp [List.lookup]
  | cons p t ih =>
    obtain ⟨a, w⟩ := p
    by_cases hk : k = a
    · subst hk
      simp [List.lookup] at h
    · have hne : (k == a) = false := beq_eq_false_iff_ne.mpr hk
      simp only [List.lookup, hne, List.cons_append] at h ⊢
      exact ih h

theorem dictInsert_miss {d : List (String × PyVal)} {k : String} {v : PyVal}
    (h : d.lookup k = Option.none) : dictInsert k v d = d ++ [(k, v)] := by
  unfold dictInsert
  rw [h]
  rfl

theorem lookup_dictInsert_fresh {d : List (String × PyVal)} {k : String} {v : PyVal}
    (h : d.lookup k = Option.none) : (dictInsert k v d).lookup k = some v := by
  rw [dictInsert_miss h]
  exact lookup_append_right_fresh h

/-! ## Run-level invariants -/

theorem step_cache_lookup_mono {geo : String → Option ℚ × Option ℚ × String}
    {st : RunState} {ir : Nat × InputRow} {a : String} {e : PyVal}
    (h : st.cache.lookup a = some e) : (step geo st ir).cache.lookup a = some e := by
  by_cases hc : st.crashed = true
  · rw [step_crashed hc]; exact h
  · replace hc : st.crashed = false := by simpa using hc
    obtain ⟨i, row⟩ := ir
    by_cases hs : skipCond row
    · rw [step_skip hc hs]; exact h
    · cases hl : st.cache.lookup (rowAddr row) with
      | some entry =>
        cases entry with
        | dict d => rw [step_hit hc hs hl]; exact h
        | none => rw [step_hit_crash hc hs hl rfl]; exact h
        | bool b => rw [step_hit_crash hc hs hl rfl]; exact h
        | num q => rw [step_hit_crash hc hs hl rfl]; exact h
        | str s2 => rw [step_hit_crash hc hs hl rfl]; exact h
        | list xs => rw [step_hit_crash hc hs hl rfl]; exact h
      | none =>
        rw [step_miss hc hs hl]
        show (dictInsert (rowAddr row) _ st.cache).lookup a = some e
        rw [dictInsert_miss hl]
        exact lookup_append_some h

theorem foldl_cache_lookup_mono (geo : String → Option ℚ × Option ℚ × String) :
    ∀ (irs : List (Nat × InputRow)) (s : RunState) {a : String} {e : PyVal},
      s.cache.lookup a = some e →
      ((irs.foldl (step geo) s).cache.lookup a = some e) := by
  intro irs
  induction irs with
  | nil => intro s a e h; exact h
  | cons ir irs' ih => intro s a e h; exact ih _ (step_cache_lookup_mono h)

theorem step_no_call {geo : String → Option ℚ × Option ℚ × String}
    {st : RunState} {ir : Nat × InputRow} {a : String}
    (h1 : (st.cache.lookup a).isSome = true) (h2 : a ∉ st.calls) :
    a ∉ (step geo st ir).calls := by
  by_cases hc : st.crashed = true
  · rw [step_crashed hc]; exact h2
  · replace hc : st.crashed = false := by simpa using hc
    obtain ⟨i, row⟩ := ir
    by_cases hs : skipCond row
    · rw [step_skip hc hs]; exact h2
    · cases hl : st.cache.lookup (rowAddr row) with
      | some entry =>
        cases entry with
        | dict d => rw [step_hit hc hs hl]; exact h2
        | none => rw [step_hit_crash hc hs hl rfl]; exact h2
        | bool b => rw [step_hit_crash hc hs hl rfl]; exact h2
        | num q => rw [step_hit_crash hc hs hl rfl]; exact h2
        | str s2 => rw [step_hit_crash hc hs hl rfl]; exact h2
        | list xs => rw [step_hit_crash hc hs hl rfl]; exact h2
      | none =>
        rw [step_miss hc hs hl]
        show a ∉ st.calls ++ [rowAddr row]
        intro hmem
        rcases List.mem_append.mp hmem with h | h
        · exact h2 h
        · have ha : a = rowAddr row := by simpa using h
          rw [ha, hl] at h1
          simp at h1

theorem foldl_no_call (geo : String → Option ℚ × Option ℚ × String) :
    ∀ (irs : List (Nat × InputRow)) (s : RunState) {a : String},
      (s.cache.lookup a).isSome = true → a ∉ s.calls →
      a ∉ (irs.foldl (step geo) s).calls := by
  intro irs
  induction irs with
  | nil => intro s a _ h2; exact h2
  | cons ir irs' ih =>
    intro s a h1 h2
    obtain ⟨e, he⟩ := Option.isSome_iff_exists.mp h1
    exact ih _ (Option.isSome_iff_exists.mpr ⟨e, step_cache_lookup_mono he⟩)
      (step_no_call h1 h2)

/-! ## Well-formedness invariant: object-valued caches never crash the loop -/

theorem entriesWF_lookup {d : List (String × PyVal)} {a : String} {e : PyVal}
    (hwf : entriesWF d = true) (h : d.lookup a = some e) : e.isDictB = true := by
  have := List.all_eq_true.mp hwf (a, e) (lookup_mem h)
  simpa using this

theorem entriesWF_of_cacheValWF {v : PyVal} (h : cacheValWF v = true) :
    entriesWF (pyValEntries v) = true := by
  cases v with
  | dict d => exact h
  | none => simp [cacheValWF] at h
  | bool b => simp [cacheValWF] at h
  | num q => simp [cacheValWF] at h
  | str s2 => simp [cacheValWF] at h
  | list xs => simp [cacheValWF] at h

theorem step_wf (geo : String → Option ℚ × Option ℚ × String) {st : RunState}
    (ir : Nat × InputRow) (hc : st.crashed = false)
    (hwf : entriesWF st.cache = true) :
    (step geo st ir).crashed = false ∧ entriesWF (step geo st ir).cache = true := by
  obtain ⟨i, row⟩ := ir
  by_cases hs : skipCond row
  · rw [step_skip hc hs]; exact ⟨hc, hwf⟩
  · cases hl : st.cache.lookup (rowAddr row) with
    | some entry =>
      have hd := entriesWF_lookup hwf hl
      cases entry with
      | dict d => rw [step_hit hc hs hl]; exact ⟨hc, hwf⟩
      | none => simp [PyVal.isDictB] at hd
      | bool b => simp [PyVal.isDictB] at hd
      | num q => simp [PyVal.isDictB] at hd
      | str s2 => simp [PyVal.isDictB] at hd
      | list xs => simp [PyVal.isDictB] at hd
    | none =>
      rw [step_miss hc hs hl]
      refine ⟨hc, ?_⟩
      show entriesWF (dictInsert (rowAddr row) _ st.cache) = true
      rw [dictInsert_miss hl]
      unfold entriesWF at hwf ⊢
      rw [List.all_append, hwf]
      rfl

theorem foldl_wf (geo : String → Option ℚ × Option ℚ × String) :
    ∀ (irs : List (Nat × InputRow)) (s : RunState),
      s.crashed = false → entriesWF s.cache = true →
      (irs.foldl (step geo) s).crashed = false ∧
      entriesWF (irs.foldl (step geo) s).cache = true := by
  intro irs
  induction irs with
  | nil => intro s h1 h2; exact ⟨h1, h2⟩
  | cons ir irs' ih =>
    intro s h1 h2
    obtain ⟨h1', h2'⟩ := step_wf geo ir h1 h2
    exact ih _ h1' h2'

theorem clubMissing_iff (c : Club) :
    clubMissing c = true ↔ (c.lat = PyVal.none ∨ c.lng = PyVal.none) := by
  obtain ⟨id, name, addr, lat, lng⟩ := c
  cases lat <;> cases lng <;> simp [clubMissing]

/-! ## Projection lemmas for the three step outcomes -/

section StepProj

variable {geo : String → Option ℚ × Option ℚ × String} {st : RunState}
variable {i : Nat} {row : InputRow}

theorem step_skip_clubs (hc : st.crashed = false) (h : skipCond row) :
    (step geo st (i, row)).clubs = st.clubs := by rw [step_skip hc h]

theorem step_skip_cache (hc : st.crashed = false) (h : skipCond row) :
    (step geo st (i, row)).cache = st.cache := by rw [step_skip hc h]

theorem step_skip_crashed (hc : st.crashed = false) (h : skipCond row) :
    (step geo st (i, row)).crashed = false := by rw [step_skip hc h]; exact hc

variable {d : List (String × PyVal)}

theorem step_hit_clubs (hc : st.crashed = false) (hs : ¬ skipCond row)
    (hl : st.cache.lookup (rowAddr row) = some (PyVal.dict d)) :
    (step geo st (i, row)).clubs = st.clubs ++
      [⟨slugify (rowName row), rowName row, rowAddr row,
        dictGetD d "lat", dictGetD d "lng"⟩] := by
  rw [step_hit hc hs hl]; rfl

theorem step_hit_cache (hc : st.crashed = false) (hs : ¬ skipCond row)
    (hl : st.cache.lookup (rowAddr row) = some (PyVal.dict d)) :
    (step geo st (i, row)).cache = st.cache := by
  rw [step_hit hc hs hl]; rfl

theorem step_hit_crashed (hc : st.crashed = false) (hs : ¬ skipCond row)
    (hl : st.cache.lookup (rowAddr row) = some (PyVal.dict d)) :
    (step geo st (i, row)).crashed = false := by
  rw [step_hit hc hs hl]; exact hc

theorem step_miss_clubs (hc : st.crashed = false) (hs : ¬ skipCond row)
    (hl : st.cache.lookup (rowAddr row) = Option.none) :
    (step geo st (i, row)).clubs = st.clubs ++
      [⟨slugify (rowName row), rowName row, rowAddr row,
        optToPy (geo (rowAddr row)).1, optToPy (geo (rowAddr row)).2.1⟩] := by
  rw [step_miss hc hs hl]; rfl

theorem step_miss_lookup (geof : String → Option ℚ × Option ℚ × String)
    (j : Nat) {st2 : RunState} {row2 : InputRow}
    (hc : st2.crashed = false) (hs : ¬ skipCond row2)
    (hl : st2.cache.lookup (rowAddr row2) = Option.none) :
    (step geof st2 (j, row2)).cache.lookup (rowAddr row2) =
      some (PyVal.dict [("lat", optToPy (geof (rowAddr row2)).1),
        ("lng", optToPy (geof (rowAddr row2)).2.1),
        ("status", PyVal.str (geof (rowAddr row2)).2.2)]) := by
  rw [step_miss hc hs hl]
  exact lookup_dictInsert_fresh hl

end StepProj

/-! ## Rerun simulation: a second run from the first run's final cache
reproduces the same club records with no live calls (C9) -/

theorem rerun_sim (geo geo' : String → Option ℚ × Option ℚ × String) :
    ∀ (irs : List (Nat × InputRow)) (s1 s2 : RunState),
      s1.crashed = false → s2.crashed = false →
      entriesWF s1.cache = true →
      s2.cache = (irs.foldl (step geo) s1).cache →
      s2.clubs = s1.clubs →
      (irs.foldl (step geo') s2).clubs = (irs.foldl (step geo) s1).clubs ∧
      (irs.foldl (step geo') s2).cache = s2.cache ∧
      (irs.foldl (step geo') s2).crashed = false ∧
      (irs.foldl (step geo') s2).calls = s2.calls := by
  intro irs
  induction irs with
  | nil =>
    intro s1 s2 _ h2 _ _ hclubs
    exact ⟨hclubs, rfl, h2, rfl⟩
  | cons ir irs' ih =>
    intro s1 s2 h1 h2 hwf hcache hclubs
    obtain ⟨i, row⟩ := ir
    rw [List.foldl_cons] at hcache ⊢
    have hwf1' := step_wf geo (i, row) h1 hwf
    by_cases hs : skipCond row
    · have hclubs' : (step geo' s2 (i, row)).clubs = (step geo s1 (i, row)).clubs := by
        rw [step_skip_clubs h2 hs, step_skip_clubs h1 hs]; exact hclubs
      have hcache' : (step geo' s2 (i, row)).cache =
          (irs'.foldl (step geo) (step geo s1 (i, row))).cache := by
        rw [step_skip_cache h2 hs]; exact hcache
      obtain ⟨g1, g2, g3, g4⟩ := ih _ _ hwf1'.1 (step_skip_crashed h2 hs) hwf1'.2
        hcache' hclubs'
      refine ⟨g1, ?_, g3, ?_⟩
      · rw [g2, step_skip_cache h2 hs]
      · rw [g4, step_skip h2 hs]

    · cases hl : s1.cache.lookup (rowAddr row) with
      | some entry =>
        have hd := entriesWF_lookup hwf hl
        cases entry with
        | none => simp [PyVal.isDictB] at hd
        | bool b => simp [PyVal.isDictB] at hd
        | num q => simp [PyVal.isDictB] at hd
        | str s3 => simp [PyVal.isDictB] at hd
        | list xs => simp [PyVal.isDictB] at hd
        | dict d =>
          have hafter : (step geo s1 (i, row)).cache.lookup (rowAddr row) =
              some (PyVal.dict d) := by
            rw [step_hit_cache h1 hs hl]; exact hl
          have hlook2 : s2.cache.lookup (rowAddr row) = some (PyVal.dict d) := by
            rw [hcache]
            exact foldl_cache_lookup_mono geo irs' _ hafter
          have hclubs' : (step geo' s2 (i, row)).clubs = (step geo s1 (i, row)).clubs := by
            rw [step_hit_clubs h2 hs hlook2, step_hit_clubs h1 hs hl, hclubs]
          have hcache' : (step geo' s2 (i, row)).cache =
              (irs'.foldl (step geo) (step geo s1 (i, row))).cache := by
            rw [step_hit_cache h2 hs hlook2]; exact hcache
          obtain ⟨g1, g2, g3, g4⟩ := ih _ _ hwf1'.1 (step_hit_crashed h2 hs hlook2)
            hwf1'.2 hcache' hclubs'
          refine ⟨g1, ?_, g3, ?_⟩
          · rw [g2, step_hit_cache h2 hs hlook2]
          · rw [g4, step_hit h2 hs hlook2]; rfl
      | none =>
        have hafter := step_miss_lookup geo i h1 hs hl
        have hlook2 : s2.cache.lookup (rowAddr row) =
            some (PyVal.dict [("lat", optToPy (geo (rowAddr row)).1),
              ("lng", optToPy (geo (rowAddr row)).2.1),
              ("status", PyVal.str (geo (rowAddr row)).2.2)]) := by
          rw [hcache]
          exact foldl_cache_lookup_mono geo irs' _ hafter
        have hclubs' : (step geo' s2 (i, row)).clubs = (step geo s1 (i, row)).clubs := by
          rw [step_hit_clubs h2 hs hlook2, step_miss_clubs h1 hs hl, hclubs]
          rfl
        have hcache' : (step geo' s2 (i, row)).cache =
            (irs'.foldl (step geo) (step geo s1 (i, row))).cache := by
          rw [step_hit_cache h2 hs hlook2]; exact hcache
        obtain ⟨g1, g2, g3, g4⟩ := ih _ _ hwf1'.1 (step_hit_crashed h2 hs hlook2)
          hwf1'.2 hcache' hclubs'
        refine ⟨g1, ?_, g3, ?_⟩
        · rw [g2, step_hit_cache h2 hs hlook2]
        · rw [g4, step_hit h2 hs hlook2]; rfl

/-! ## Concrete fixtures for witnesses -/

/-- A concrete geocoder oracle. -/
def geoW : String → Option ℚ × Option ℚ × String := fun _ => (some 1, some 2, "OK")

/-- A well-formed cached entry whose recorded status is a failure. -/
def entryW : List (String × PyVal) :=
  [("lat", PyVal.num 1), ("lng", PyVal.num 2), ("status", PyVal.str "No result")]

/-- A cached entry lacking both coordinate keys. -/
def entryW2 : List (String × PyVal) := [("status", PyVal.str "x")]

/-! ## Claim theorems: the pipeline driver -/

/-- C1: on a cache hit (non-skipped row whose normalized address is a key
of the cache map, its entry being a JSON object as the data model's Cache
Store prescribes) the driver makes no network call, incurs no delay, leaves
the cache unchanged, emits the club record with the cached lat/lng, and
reports `"OK (cached)"` whatever status the entry stores; and any address
present in the cache at run start is never passed to the geocoder during the
whole run. -/
theorem claim_C1_cache_hit :
    (∀ (geo : String → Option ℚ × Option ℚ × String) (st : RunState) (i : Nat)
        (row : InputRow) (d : List (String × PyVal)),
      st.crashed = false → ¬ skipCond row →
      st.cache.lookup (rowAddr row) = some (PyVal.dict d) →
      (step geo st (i, row)).calls = st.calls ∧
      (step geo st (i, row)).sleepTotal = st.sleepTotal ∧
      (step geo st (i, row)).cache = st.cache ∧
      (step geo st (i, row)).clubs = st.clubs ++
        [⟨slugify (rowName row), rowName row, rowAddr row,
          dictGetD d "lat", dictGetD d "lng"⟩] ∧
      (step geo st (i, row)).report = st.report ++
        [⟨i, rowName row, rowAddr row, "OK (cached)",
          renderCell (dictGetD d "lat"), renderCell (dictGetD d "lng")⟩]) ∧
    (∀ (geo : String → Option ℚ × Option ℚ × String)
        (cache0 : List (String × PyVal)) (rows : List InputRow) (a : String),
      (cache0.lookup a).isSome = true → a ∉ (runRows geo cache0 rows).calls) := by
  constructor
  · intro geo st i row d hc hs hl
    rw [step_hit hc hs hl]
    exact ⟨rfl, rfl, rfl, rfl, rfl⟩
  · intro geo cache0 rows a h
    exact foldl_no_call geo rows.enum (initState cache0) h (List.not_mem_nil a)

/-- Witness for C1: a hit on a cached entry whose stored status is the
failure `"No result"` still reports `"OK (cached)"` with the cached
coordinates, and the cached address is never called. -/
theorem claim_C1_cache_hit_witness :
    ((step geoW (initState [("a", PyVal.dict entryW)]) (0, ⟨"Club", "a"⟩)).calls = [] ∧
     (step geoW (initState [("a", PyVal.dict entryW)]) (0, ⟨"Club", "a"⟩)).sleepTotal = 0 ∧
     (step geoW (initState [("a", PyVal.dict entryW)]) (0, ⟨"Club", "a"⟩)).cache =
       [("a", PyVal.dict entryW)] ∧
     (step geoW (initState [("a", PyVal.dict entryW)]) (0, ⟨"Club", "a"⟩)).clubs =
       [⟨"club", "Club", "a", PyVal.num 1, PyVal.num 2⟩] ∧
     (step geoW (initState [("a", PyVal.dict entryW)]) (0, ⟨"Club", "a"⟩)).report =
       [⟨0, "Club", "a", "OK (cached)", PyVal.num 1, PyVal.num 2⟩]) ∧
    "a" ∉ (runRows geoW [("a", PyVal.dict entryW)] [⟨"Club", "a"⟩]).calls :=
  ⟨claim_C1_cache_hit.1 geoW (initState [("a", PyVal.dict entryW)]) 0 ⟨"Club", "a"⟩
      entryW rfl (by decide) rfl,
   claim_C1_cache_hit.2 geoW [("a", PyVal.dict entryW)] [⟨"Club", "a"⟩] "a" rfl⟩

/-- C2 (amended): a row is skipped — report row with status
`"Skipped (missing name/address)"` and empty coordinate cells, no club
record, no cache interaction — if and only if its club name is blank, its
normalized address is blank, or the **lowercase of** its normalized address
equals `"nan"`; otherwise the row either crashes the run on a malformed
cache entry (emitting nothing) or emits a club record. -/
theorem claim_C2_skip_rule (geo : String → Option ℚ × Option ℚ × String)
    (st : RunState) (i : Nat) (row : InputRow) (hc : st.crashed = false) :
    ((rowName row = "" ∨ rowAddr row = "" ∨ pyLower (rowAddr row) = "nan") →
      step geo st (i, row) =
        { st with report := st.report ++
            [⟨i, rowName row, rowAddr row, "Skipped (missing name/address)",
              .str "", .str ""⟩] }) ∧
    (¬(rowName row = "" ∨ rowAddr row = "" ∨ pyLower (rowAddr row) = "nan") →
      ((step geo st (i, row)).crashed = true ∧
        (step geo st (i, row)).report = st.report ∧
        (step geo st (i, row)).clubs = st.clubs) ∨
      ∃ cl, (step geo st (i, row)).clubs = st.clubs ++ [cl]) := by
  constructor
  · intro h
    exact step_skip hc h
  · intro h
    cases hl : st.cache.lookup (rowAddr row) with
    | some entry =>
      cases entry with
      | dict d =>
        exact Or.inr ⟨⟨slugify (rowName row), rowName row, rowAddr row,
          dictGetD d "lat", dictGetD d "lng"⟩, by rw [step_hit hc h hl]; rfl⟩
      | none => exact Or.inl (by rw [step_hit_crash hc h hl rfl]; exact ⟨rfl, rfl, rfl⟩)
      | bool b => exact Or.inl (by rw [step_hit_crash hc h hl rfl]; exact ⟨rfl, rfl, rfl⟩)
      | num q => exact Or.inl (by rw [step_hit_crash hc h hl rfl]; exact ⟨rfl, rfl, rfl⟩)
      | str s2 => exact Or.inl (by rw [step_hit_crash hc h hl rfl]; exact ⟨rfl, rfl, rfl⟩)
      | list xs => exact Or.inl (by rw [step_hit_crash hc h hl rfl]; exact ⟨rfl, rfl, rfl⟩)
    | none =>
      exact Or.inr ⟨⟨slugify (rowName row), rowName row, rowAddr row,
        optToPy (geo (rowAddr row)).1, optToPy (geo (rowAddr row)).2.1⟩,
        by rw [step_miss hc h hl]; rfl⟩

/-- Witness for C2 (amended): a blank-address row is skipped exactly as the
rule states. -/
theorem claim_C2_skip_rule_witness :
    step geoW (initState []) (0, ⟨"Club", " "⟩) =
      { initState [] with report :=
          [⟨0, "Club", "", "Skipped (missing name/address)",
            PyVal.str "", PyVal.str ""⟩] } :=
  (claim_C2_skip_rule geoW (initState []) 0 ⟨"Club", " "⟩ rfl).1 (by decide)

/-- Counterexample for C2 as frozen: the row `{CLUB: "X", ADDRESS: "NAN"}`
satisfies none of the claim's three conditions — the name and the normalized
address are non-blank and the normalized address is `"NAN"`, not the literal
`"nan"` — yet the code skips it (the guard lowercases before comparing). -/
theorem claim_C2_counterexample :
    rowName ⟨"X", "NAN"⟩ ≠ "" ∧
    rowAddr ⟨"X", "NAN"⟩ ≠ "" ∧
    rowAddr ⟨"X", "NAN"⟩ ≠ "nan" ∧
    (step geoW (initState []) (0, ⟨"X", "NAN"⟩)).report =
      [⟨0, "X", "NAN", "Skipped (missing name/address)", PyVal.str "", PyVal.str ""⟩] ∧
    (step geoW (initState []) (0, ⟨"X", "NAN"⟩)).clubs = [] :=
  ⟨by decide, by decide, by decide, rfl, rfl⟩

/-- C4: on a cache miss of a non-skipped row the driver calls the
geocoder exactly once for the normalized address, stores the returned
`(lat, lng, status)` triple in the cache under that address (also on
failure), sleeps the fixed `1.1` delay, and reports the geocoder's status. -/
theorem claim_C4_live_lookup (geo : String → Option ℚ × Option ℚ × String)
    (st : RunState) (i : Nat) (row : InputRow)
    (hc : st.crashed = false) (hs : ¬ skipCond row)
    (hl : st.cache.lookup (rowAddr row) = Option.none) :
    (step geo st (i, row)).calls = st.calls ++ [rowAddr row] ∧
    (step geo st (i, row)).cache.lookup (rowAddr row) =
      some (PyVal.dict [("lat", optToPy (geo (rowAddr row)).1),
        ("lng", optToPy (geo (rowAddr row)).2.1),
        ("status", PyVal.str (geo (rowAddr row)).2.2)]) ∧
    (step geo st (i, row)).sleepTotal = st.sleepTotal + 11/10 ∧
    (step geo st (i, row)).report = st.report ++
      [⟨i, rowName row, rowAddr row, (geo (rowAddr row)).2.2,
        renderCell (optToPy (geo (rowAddr row)).1),
        renderCell (optToPy (geo (rowAddr row)).2.1)⟩] ∧
    (step geo st (i, row)).clubs = st.clubs ++
      [⟨slugify (rowName row), rowName row, rowAddr row,
        optToPy (geo (rowAddr row)).1, optToPy (geo (rowAddr row)).2.1⟩] := by
  rw [step_miss hc hs hl]
  exact ⟨rfl, lookup_dictInsert_fresh hl, rfl, rfl, rfl⟩

/-- Witness for C4: a miss on the empty cache triggers one call, caches the
triple, sleeps `1.1`, and reports the geocoder's status. -/
theorem claim_C4_live_lookup_witness :
    (step geoW (initState []) (0, ⟨"Club", "b"⟩)).calls = [] ++ ["b"] ∧
    (step geoW (initState []) (0, ⟨"Club", "b"⟩)).cache.lookup "b" =
      some (PyVal.dict [("lat", PyVal.num 1), ("lng", PyVal.num 2),
        ("status", PyVal.str "OK")]) ∧
    (step geoW (initState []) (0, ⟨"Club", "b"⟩)).sleepTotal = 0 + 11/10 ∧
    (step geoW (initState []) (0, ⟨"Club", "b"⟩)).report =
      [⟨0, "Club", "b", "OK", PyVal.num 1, PyVal.num 2⟩] ∧
    (step geoW (initState []) (0, ⟨"Club", "b"⟩)).clubs =
      [⟨"club", "Club", "b", PyVal.num 1, PyVal.num 2⟩] :=
  claim_C4_live_lookup geoW (initState []) 0 ⟨"Club", "b"⟩ rfl (by decide) rfl

/-- C10: provided the hit entry is a JSON object (as when every value in
the loaded cache map is an object), the cache-hit path never raises, and a
missing `"lat"`/`"lng"` key is carried as `None` into the club record and
rendered as the empty string in the report, the status still being
`"OK (cached)"`. -/
theorem claim_C10_malformed_entry (geo : String → Option ℚ × Option ℚ × String)
    (st : RunState) (i : Nat) (row : InputRow) (d : List (String × PyVal))
    (hc : st.crashed = false) (hs : ¬ skipCond row)
    (hl : st.cache.lookup (rowAddr row) = some (PyVal.dict d)) :
    (step geo st (i, row)).crashed = false ∧
    (d.lookup "lat" = Option.none →
      (step geo st (i, row)).clubs = st.clubs ++
        [⟨slugify (rowName row), rowName row, rowAddr row,
          PyVal.none, dictGetD d "lng"⟩] ∧
      (step geo st (i, row)).report = st.report ++
        [⟨i, rowName row, rowAddr row, "OK (cached)", PyVal.str "",
          renderCell (dictGetD d "lng")⟩]) ∧
    (d.lookup "lng" = Option.none →
      (step geo st (i, row)).clubs = st.clubs ++
        [⟨slugify (rowName row), rowName row, rowAddr row,
          dictGetD d "lat", PyVal.none⟩] ∧
      (step geo st (i, row)).report = st.report ++
        [⟨i, rowName row, rowAddr row, "OK (cached)",
          renderCell (dictGetD d "lat"), PyVal.str ""⟩]) := by
  rw [step_hit hc hs hl]
  refine ⟨hc, fun hla => ?_, fun hln => ?_⟩
  · have h1 : dictGetD d "lat" = PyVal.none := by unfold dictGetD; rw [hla]
    rw [h1]
    exact ⟨rfl, rfl⟩
  · have h1 : dictGetD d "lng" = PyVal.none := by unfold dictGetD; rw [hln]
    rw [h1]
    exact ⟨rfl, rfl⟩

/-- Witness for C10: a cached entry with only a `"status"` key yields a club
record with `None` coordinates and empty report cells, without crashing. -/
theorem claim_C10_malformed_entry_witness :
    (step geoW (initState [("a", PyVal.dict entryW2)]) (0, ⟨"Club", "a"⟩)).crashed
        = false ∧
    (step geoW (initState [("a", PyVal.dict entryW2)]) (0, ⟨"Club", "a"⟩)).clubs =
      [⟨"club", "Club", "a", PyVal.none, dictGetD entryW2 "lng"⟩] ∧
    (step geoW (initState [("a", PyVal.dict entryW2)]) (0, ⟨"Club", "a"⟩)).report =
      [⟨0, "Club", "a", "OK (cached)", PyVal.str "",
        renderCell (dictGetD entryW2 "lng")⟩] :=
  ⟨(claim_C10_malformed_entry geoW (initState [("a", PyVal.dict entryW2)]) 0
      ⟨"Club", "a"⟩ entryW2 rfl (by decide) rfl).1,
   (claim_C10_malformed_entry geoW (initState [("a", PyVal.dict entryW2)]) 0
      ⟨"Club", "a"⟩ entryW2 rfl (by decide) rfl).2.1 rfl⟩

/-- C7: loading the cache from a missing file or from a file `json.loads`
cannot parse yields the empty map without failing, and persisting any cache
map and reloading it yields the identical mapping.  (`json.dumps`/`json.loads`
are the standard library's; their string-level round trip is modelled as the
identity on the JSON value, so persistence works on `PyVal`.) -/
theorem claim_C7_cache_roundtrip (m : List (String × PyVal)) :
    loadCacheVal Option.none = PyVal.dict [] ∧
    loadCacheVal (some Option.none) = PyVal.dict [] ∧
    pyValEntries (loadCacheVal (some (some (persistCache m)))) = m :=
  ⟨rfl, rfl, rfl⟩

/-- C5: a missing input file or a missing `CLUB`/`ADDRESS` column gives
`sys.exit(1)` with no output written (the `fatal` result carries no write
events); otherwise — for a cache file conforming to the data model — the run
completes, writes the JSON output, the CSV report and the cache, in that
order, and exits `2` exactly when some emitted club lacks a coordinate,
else `0`. -/
theorem claim_C5_exit_codes (geo : String → Option ℚ × Option ℚ × String)
    (env : Env)
    (hwf : cacheValWF (loadCacheVal env.cacheFile) = true) :
    (env.inputExists = false → mainRun geo env = MainResult.fatal 1) ∧
    (("CLUB" ∉ env.columns ∨ "ADDRESS" ∉ env.columns) →
      mainRun geo env = MainResult.fatal 1) ∧
    (env.inputExists = true → "CLUB" ∈ env.columns → "ADDRESS" ∈ env.columns →
      ∃ code,
        mainRun geo env = MainResult.completed
          [WriteEvent.jsonOut
            (runRows geo (pyValEntries (loadCacheVal env.cacheFile)) env.rows).clubs,
           WriteEvent.csvReport
            (runRows geo (pyValEntries (loadCacheVal env.cacheFile)) env.rows).report,
           WriteEvent.cacheOut (persistCache
            (runRows geo (pyValEntries (loadCacheVal env.cacheFile)) env.rows).cache)]
          code ∧
        (code = 2 ↔ ∃ c ∈ (runRows geo (pyValEntries (loadCacheVal env.cacheFile))
            env.rows).clubs, c.lat = PyVal.none ∨ c.lng = PyVal.none) ∧
        (code = 0 ∨ code = 2)) := by
  refine ⟨?_, ?_, ?_⟩
  · intro h
    unfold mainRun
    rw [if_pos h]
  · intro h
    cases hin : env.inputExists with
    | false => unfold mainRun; rw [if_pos hin]
    | true =>
      unfold mainRun
      rw [if_neg (by simp [hin]), if_pos h]
  · intro hin hcol1 hcol2
    have hcr := foldl_wf geo env.rows.enum (initState (pyValEntries (loadCacheVal env.cacheFile)))
      rfl (entriesWF_of_cacheValWF hwf)
    refine ⟨if ((runRows geo (pyValEntries (loadCacheVal env.cacheFile))
        env.rows).clubs.filter clubMissing).length > 0 then 2 else 0, ?_, ?_, ?_⟩
    · show mainRun geo env = _
      unfold mainRun
      rw [if_neg (by simp [hin]), if_neg (by push_neg; exact ⟨hcol1, hcol2⟩)]
      rw [if_neg]
      intro hcontra
      rw [show (runRows geo (pyValEntries (loadCacheVal env.cacheFile))
        env.rows).crashed = false from hcr.1] at hcontra
      exact Bool.false_ne_true hcontra
    · constructor
      · intro hcode
        by_cases hpos : ((runRows geo (pyValEntries (loadCacheVal env.cacheFile))
            env.rows).clubs.filter clubMissing).length > 0
        · obtain ⟨c, hc1, hc2⟩ : ∃ c ∈ (runRows geo (pyValEntries
              (loadCacheVal env.cacheFile)) env.rows).clubs, clubMissing c = true := by
            have hne : ((runRows geo (pyValEntries (loadCacheVal env.cacheFile))
                env.rows).clubs.filter clubMissing) ≠ [] := by
              intro he
              rw [he] at hpos
              simp at hpos
            obtain ⟨c, hc⟩ := List.exists_mem_of_ne_nil _ hne
            exact ⟨c, List.mem_of_mem_filter hc, List.of_mem_filter hc⟩
          exact ⟨c, hc1, (clubMissing_iff c).mp hc2⟩
        · rw [if_neg hpos] at hcode
          exact absurd hcode (by decide)
      · rintro ⟨c, hc1, hc2⟩
        rw [if_pos]
        refine Nat.pos_of_ne_zero (fun hz => ?_)
        rw [List.length_eq_zero] at hz
        have : c ∈ (runRows geo (pyValEntries (loadCacheVal env.cacheFile))
            env.rows).clubs.filter clubMissing :=
          List.mem_filter.mpr ⟨hc1, (clubMissing_iff c).mpr hc2⟩
        rw [hz] at this
        simp at this
    · by_cases hpos : ((runRows geo (pyValEntries (loadCacheVal env.cacheFile))
          env.rows).clubs.filter clubMissing).length > 0
      · rw [if_pos hpos]; exact Or.inr rfl
      · rw [if_neg hpos]; exact Or.inl rfl

/-- Witness for C5: a missing input file exits with code 1 and no writes. -/
theorem claim_C5_exit_codes_witness :
    mainRun geoW ⟨false, [], Option.none, []⟩ = MainResult.fatal 1 :=
  (claim_C5_exit_codes geoW ⟨false, [], Option.none, []⟩ rfl).1 rfl

/-- C9: with an unchanged input and the cache persisted by the first run
(a warm cache), a second run — whatever its geocoder returns — completes and
writes a JSON output identical to the first run's (same club list, hence the
same bytes under the deterministic serializer), the same persisted cache and
the same exit code. -/
theorem claim_C9_rerun_determinism (geo geo' : String → Option ℚ × Option ℚ × String)
    (env : Env) (hin : env.inputExists = true)
    (hc1 : "CLUB" ∈ env.columns) (hc2 : "ADDRESS" ∈ env.columns)
    (hwf : cacheValWF (loadCacheVal env.cacheFile) = true) :
    ∃ clubs rep1 rep2 cv code,
      mainRun geo env = MainResult.completed
        [WriteEvent.jsonOut clubs, WriteEvent.csvReport rep1,
         WriteEvent.cacheOut cv] code ∧
      mainRun geo' { env with cacheFile := some (some cv) } =
        MainResult.completed
          [WriteEvent.jsonOut clubs, WriteEvent.csvReport rep2,
           WriteEvent.cacheOut cv] code := by
  have hwfe := entriesWF_of_cacheValWF hwf
  have hst := foldl_wf geo env.rows.enum
    (initState (pyValEntries (loadCacheVal env.cacheFile))) rfl hwfe
  have hcr1 : (runRows geo (pyValEntries (loadCacheVal env.cacheFile))
      env.rows).crashed = false := hst.1
  obtain ⟨g1, g2, g3, g4⟩ := rerun_sim geo geo' env.rows.enum
    (initState (pyValEntries (loadCacheVal env.cacheFile)))
    (initState (runRows geo (pyValEntries (loadCacheVal env.cacheFile)) env.rows).cache)
    rfl rfl hwfe rfl rfl
  have e1 : (runRows geo'
      ((runRows geo (pyValEntries (loadCacheVal env.cacheFile)) env.rows).cache)
      env.rows).clubs =
      (runRows geo (pyValEntries (loadCacheVal env.cacheFile)) env.rows).clubs := g1
  have e2 : (runRows geo'
      ((runRows geo (pyValEntries (loadCacheVal env.cacheFile)) env.rows).cache)
      env.rows).cache =
      (runRows geo (pyValEntries (loadCacheVal env.cacheFile)) env.rows).cache := g2
  have e3 : (runRows geo'
      ((runRows geo (pyValEntries (loadCacheVal env.cacheFile)) env.rows).cache)
      env.rows).crashed = false := g3
  refine ⟨(runRows geo (pyValEntries (loadCacheVal env.cacheFile)) env.rows).clubs,
    (runRows geo (pyValEntries (loadCacheVal env.cacheFile)) env.rows).report,
    (runRows geo'
      ((runRows geo (pyValEntries (loadCacheVal env.cacheFile)) env.rows).cache)
      env.rows).report,
    persistCache (runRows geo (pyValEntries (loadCacheVal env.cacheFile)) env.rows).cache,
    (if ((runRows geo (pyValEntries (loadCacheVal env.cacheFile))
        env.rows).clubs.filter clubMissing).length > 0 then 2 else 0),
    ?_, ?_⟩
  · unfold mainRun
    rw [if_neg (by simp [hin]), if_neg (by push_neg; exact ⟨hc1, hc2⟩),
      if_neg (by rw [hcr1]; exact Bool.false_ne_true)]
  · show mainRun geo'
      ⟨env.inputExists, env.columns,
        some (some (persistCache (runRows geo
          (pyValEntries (loadCacheVal env.cacheFile)) env.rows).cache)),
        env.rows⟩ = _
    unfold mainRun
    dsimp only
    rw [show pyValEntries (loadCacheVal (some (some (persistCache (runRows geo
        (pyValEntries (loadCacheVal env.cacheFile)) env.rows).cache)))) =
      (runRows geo (pyValEntries (loadCacheVal env.cacheFile)) env.rows).cache
      from rfl]
    rw [if_neg (by simp [hin]), if_neg (by push_neg; exact ⟨hc1, hc2⟩),
      if_neg (by rw [e3]; exact Bool.false_ne_true)]
    rw [e1, e2]

/-- Witness for C9: a one-row input with an empty starting cache; the second
run reproduces the first run's JSON club list from the warm cache. -/
theorem claim_C9_rerun_determinism_witness :
    ∃ clubs rep1 rep2 cv code,
      mainRun geoW ⟨true, ["CLUB", "ADDRESS"], Option.none, [⟨"A", "x"⟩]⟩ =
        MainResult.completed
          [WriteEvent.jsonOut clubs, WriteEvent.csvReport rep1,
           WriteEvent.cacheOut cv] code ∧
      mainRun geoW ⟨true, ["CLUB", "ADDRESS"], some (some cv), [⟨"A", "x"⟩]⟩ =
        MainResult.completed
          [WriteEvent.jsonOut clubs, WriteEvent.csvReport rep2,
           WriteEvent.cacheOut cv] code :=
  claim_C9_rerun_determinism geoW geoW
    ⟨true, ["CLUB", "ADDRESS"], Option.none, [⟨"A", "x"⟩]⟩
    rfl (by decide) (by decide) rfl

end GeocodeClubs
